import Mathlib

/-!
Verification of the image adjustment / filter pipeline and the undo-redo
history of the Image-Processing-Application repository
(`src/image_utils.py`, `src/image_processor.py`).

Modelling conventions for the shallow embedding:

* A pixel channel sample is a `Fin 256` (`uint8`).  An RGB image (`Img`) is a
  list of rows of RGB pixels; an `L`-mode (grayscale) image (`GImg`) is a list
  of rows of channel samples.  All repository code converts inputs to `RGB`
  before processing, so `Img` values are RGB by construction.
* Python / C floating point arithmetic is modelled by exact rationals (`ℚ`).
  PIL's C blend kernel (`Blend.c`) computes `in1 + alpha*(in2-in1)`, clamps to
  `[0,255]` and truncates; this is `clampTruncQ`.  Python `int(x)` on a
  nonnegative float is `Int.floor`.
* PIL primitives whose exact numerics the claims depend on are modelled from
  PIL's documented algorithms: `Image.blend` / `ImageEnhance.Brightness` /
  `ImageEnhance.Contrast` / `ImageEnhance.Color` (all instances of the same
  blend kernel against a degenerate image), `convert("L")` (the fixed-point
  luma weights 19595/38470/7471 of PIL's `convert.c`), `ImageOps.invert`,
  `ImageOps.equalize`, `ImageOps.posterize`, `ImageChops.multiply`, `point`,
  `split`/`merge`, `crop`.  Convolution / rank filters, resampling,
  `autocontrast`, ellipse rasterisation and `Image.composite` are PIL-internal
  kernels that no claim's numerics depend on; they are abstract parameters
  (the `PILKernels` structure and explicit function arguments), so theorems
  about the surrounding repository code hold for every choice of kernel.
* The random noise drawn by `np.random.normal` in `apply_pencil_sketch` is an
  explicit input (`noise`), making the effect of the hidden random state
  visible to the theorems.
-/

/- Batteries marks the `Rat` arithmetic operations `@[irreducible]`; re-open
them in this file so that concrete witness computations reduce by `decide`
(the kernel re-checks every such reduction). -/
attribute [local semireducible] Rat.mul Rat.add Rat.inv Rat.sub Rat.ofScientific

namespace ImgProc

/-- An 8-bit channel sample (`uint8`). -/
abbrev Chan := Fin 256

/-- An RGB pixel. -/
structure Pix where
  r : Chan
  g : Chan
  b : Chan
deriving DecidableEq

/-- An RGB raster image: a list of rows of pixels. -/
structure Img where
  rows : List (List Pix)
deriving DecidableEq

/-- An `L`-mode (grayscale) raster image. -/
structure GImg where
  rows : List (List Chan)
deriving DecidableEq

/-- Width of an image (length of its first row). -/
def Img.width (im : Img) : Nat := (im.rows.headD []).length

/-- Height of an image (number of rows). -/
def Img.height (im : Img) : Nat := im.rows.length

/-- Apply a function to every pixel of an RGB image. -/
def mapImg (f : Pix → Pix) (im : Img) : Img := ⟨im.rows.map (List.map f)⟩

/-- Apply a function to every sample of a grayscale image. -/
def mapG (f : Chan → Chan) (g : GImg) : GImg := ⟨g.rows.map (List.map f)⟩

/-- Apply a function to each channel of a pixel. -/
def pixMap (f : Chan → Chan) (p : Pix) : Pix := ⟨f p.r, f p.g, f p.b⟩

/-- PIL's C blend kernel output conversion (`Blend.c`): clamp a float value to
`[0,255]` and truncate to `uint8`. -/
def clampTruncQ (t : ℚ) : Chan :=
  if t ≤ 0 then 0
  else if h : 255 ≤ t then 255
  else ⟨(⌊t⌋).toNat, by
    have h1 : t < 255 := lt_of_not_le h
    have h2 : ⌊t⌋ < (255 : ℤ) := Int.floor_lt.mpr (by exact_mod_cast h1)
    omega⟩

/-- `Image.blend(im1, im2, alpha)` on one channel:
`trunc(clamp(in1 + alpha*(in2 - in1)))`. -/
def blendChan (alpha : ℚ) (v1 v2 : Chan) : Chan :=
  clampTruncQ ((v1.val : ℚ) + alpha * ((v2.val : ℚ) - (v1.val : ℚ)))

/-- PIL `convert("L")` luma of one pixel (`convert.c`, coefficients summing to
`2^16`): `(19595*r + 38470*g + 7471*b + 32768) >> 16`. -/
def lumaVal (p : Pix) : Nat :=
  (19595 * p.r.val + 38470 * p.g.val + 7471 * p.b.val + 32768) / 65536

theorem lumaVal_lt (p : Pix) : lumaVal p < 256 := by
  have hr := p.r.isLt
  have hg := p.g.isLt
  have hb := p.b.isLt
  unfold lumaVal
  omega

/-- PIL `convert("L")` luma as a channel sample. -/
def luma (p : Pix) : Chan := ⟨lumaVal p, lumaVal_lt p⟩

/-- `image.convert('L')` / `ImageOps.grayscale`. -/
def grayscale (im : Img) : GImg := ⟨im.rows.map (List.map luma)⟩

/-- `image.convert('RGB')` applied to an `L` image: replicate the sample into
all three channels. -/
def gray2rgb (g : GImg) : Img := ⟨g.rows.map (List.map fun v => ⟨v, v, v⟩)⟩

/-- `ImageOps.invert` on an RGB image: per channel `255 - value`. -/
def invertImg (im : Img) : Img :=
  mapImg (pixMap fun v => ⟨255 - v.val, by omega⟩) im

/-- `ImageOps.invert` on an `L` image. -/
def invertG (g : GImg) : GImg :=
  mapG (fun v => ⟨255 - v.val, by omega⟩) g

/-- `Image.new('L', (w, h), 255)`: a white grayscale canvas. -/
def whiteG (w h : Nat) : GImg := ⟨List.replicate h (List.replicate w 255)⟩

/-- Sum of all samples of a grayscale image. -/
def sumG (g : GImg) : Nat := (g.rows.map fun row => (row.map Fin.val).sum).sum

/-- Number of samples of a grayscale image. -/
def countG (g : GImg) : Nat := (g.rows.map List.length).sum

/-- `ImageStat.Stat(l_image).mean[0]`: average sample value. -/
def meanQ (g : GImg) : ℚ := (sumG g : ℚ) / (countG g : ℚ)

/-- `ImageEnhance.Contrast` pivot: `int(mean + 0.5)` of the `L` conversion. -/
def contrastPivot (g : GImg) : ℤ := ⌊meanQ g + 1 / 2⌋

/-- `ImageEnhance.Brightness(img).enhance(factor)`: blend against a black
degenerate image, i.e. per channel `trunc(clamp(factor * value))`. -/
def brightnessEnhance (factor : ℚ) (im : Img) : Img :=
  mapImg (pixMap (blendChan factor 0)) im

/-- `ImageEnhance.Contrast(img).enhance(factor)`: blend against a uniform gray
degenerate image holding the rounded mean luminance. -/
def contrastEnhance (factor : ℚ) (im : Img) : Img :=
  let m : ℚ := (contrastPivot (grayscale im) : ℚ)
  mapImg (pixMap fun v => clampTruncQ (m + factor * ((v.val : ℚ) - m))) im

/-- `ImageEnhance.Contrast` on an `L`-mode image (its `convert("L")` is
itself). -/
def contrastEnhanceL (factor : ℚ) (g : GImg) : GImg :=
  let m : ℚ := (contrastPivot g : ℚ)
  mapG (fun v => clampTruncQ (m + factor * ((v.val : ℚ) - m))) g

/-- `Image.blend(im1, im2, alpha)` on RGB images. -/
def blendImg (alpha : ℚ) (im1 im2 : Img) : Img :=
  ⟨List.zipWith
    (List.zipWith fun p1 p2 =>
      Pix.mk (blendChan alpha p1.r p2.r) (blendChan alpha p1.g p2.g)
        (blendChan alpha p1.b p2.b))
    im1.rows im2.rows⟩

/-- `Image.blend(g1, g2, alpha)` on `L` images. -/
def blendG (alpha : ℚ) (g1 g2 : GImg) : GImg :=
  ⟨List.zipWith (List.zipWith (blendChan alpha)) g1.rows g2.rows⟩

/-- `image_utils.adjust_brightness_contrast` (`src/image_utils.py:18`): copy,
ensure RGB (our `Img` is RGB by construction), then PIL brightness enhancement
with factor `1 + brightness/100` when `brightness != 0`, then PIL contrast
enhancement when `contrast != 1.0`. -/
def adjust_brightness_contrast (image : Img) (brightness : ℚ) (contrast : ℚ) :
    Img :=
  let img := image
  let img := if brightness ≠ 0 then
    brightnessEnhance (1 + brightness / 100) img else img
  let img := if contrast ≠ 1 then contrastEnhance contrast img else img
  img

/-- `image_utils.adjust_brightness_contrast_numpy` (`src/image_utils.py:60`),
numpy path: per channel `v + brightness*2.55`, then `(x-128)*contrast + 128`,
clipped to `[0,255]` and truncated to `uint8`.  Python's float constant `2.55`
and intermediate float rounding are modelled by exact rationals. -/
def adjust_brightness_contrast_numpy (image : Img) (brightness : ℚ)
    (contrast : ℚ) : Img :=
  mapImg (pixMap fun v =>
    let x : ℚ := (v.val : ℚ) + brightness * (255 / 100)
    clampTruncQ ((x - 128) * contrast + 128)) image

/-- `image_utils.adjust_saturation` (`src/image_utils.py:166`):
`ImageEnhance.Color(img).enhance(factor)`, a blend against the grayscale
degenerate image, i.e. each channel blended toward the pixel's luma. -/
def adjust_saturation (image : Img) (factor : ℚ) : Img :=
  mapImg (fun p =>
    Pix.mk (blendChan factor (luma p) p.r) (blendChan factor (luma p) p.g)
      (blendChan factor (luma p) p.b)) image

/-- `image_utils.adjust_hue` (`src/image_utils.py:185`): normalise
`(shift % 360)/360` and pick one of two channel permutations, or return the
image unchanged.  `Image.merge('RGB', (b, r, g))` makes the new red channel the
old blue one, and so on. -/
def adjust_hue (image : Img) (shift : ℤ) : Img :=
  let normalized : ℚ := ((shift % 360 : ℤ) : ℚ) / 360
  if normalized < 1 / 3 then mapImg (fun p => ⟨p.b, p.r, p.g⟩) image
  else if normalized < 2 / 3 then mapImg (fun p => ⟨p.g, p.b, p.r⟩) image
  else image

/-- `image.histogram()` of an `L` image: 256 counts. -/
def histogramG (g : GImg) : List Nat :=
  (List.range 256).map fun v => (g.rows.flatten.map Fin.val).count v

/-- One entry of PIL `ImageOps.equalize`'s lookup table:
`n // step` where `n = step // 2 + sum(h[0:i])`; the C `point` table stores
`uint8`, clipping at 255. -/
def equalizeLutVal (h : List Nat) (step : Nat) (v : Chan) : Chan :=
  ⟨min ((step / 2 + (h.take v.val).sum) / step) 255, by omega⟩

/-- `ImageOps.equalize` on an `L` image (PIL `ImageOps.py`): when at most one
histogram bin is populated, or the computed `step` is zero, the lookup table is
the identity (so the image is returned unchanged); otherwise remap by the
cumulative histogram. -/
def equalizeL (g : GImg) : GImg :=
  let h := histogramG g
  let histo := h.filter (· ≠ 0)
  if histo.length ≤ 1 then g
  else
    let step := (histo.sum - histo.getLastD 0) / 255
    if step = 0 then g
    else mapG (equalizeLutVal h step) g

/-- `image_utils.apply_histogram_equalization` (`src/image_utils.py:226`).
With numpy available it computes the equalized luminance (and the
intensity-blend of it) but then discards both and returns a fixed
`ImageEnhance.Brightness(...).enhance(1.2)` of the input; without numpy it is
a contrast boost `enhance(1.0 + intensity*0.5)`, blended with the original
when `intensity < 1`. -/
def apply_histogram_equalization (numpyAvailable : Bool) (image : Img)
    (intensity : ℚ) : Img :=
  let img := image
  if numpyAvailable then
    let l_channel := equalizeL (grayscale img)
    let _equalized :=
      if intensity < 1 then blendG intensity (grayscale img) l_channel
      else l_channel
    brightnessEnhance (6 / 5) img
  else
    let _equalized_gray := equalizeL (grayscale img)
    let enhanced := contrastEnhance (1 + intensity * (1 / 2)) img
    if intensity < 1 then blendImg intensity img enhanced else enhanced

/-- numpy float-to-`uint8` cast used by `apply_sepia`: truncate toward zero,
wrapping modulo 256 (the sepia sums are nonnegative). -/
def sepiaChan (x : ℚ) : Chan := ⟨(⌊x⌋).toNat % 256, by omega⟩

/-- `image_utils.apply_sepia` (`src/image_utils.py:361`): with numpy, the
fixed sepia matrix assigned into a `uint8` array (wrapping), the later
`np.clip` being a no-op; without numpy, desaturate then a slight
brightness/contrast adjustment. -/
def apply_sepia (numpyAvailable : Bool) (image : Img) : Img :=
  if numpyAvailable then
    mapImg (fun p =>
      Pix.mk
        (sepiaChan ((p.r.val : ℚ) * (393 / 1000) + (p.g.val : ℚ) * (769 / 1000)
          + (p.b.val : ℚ) * (189 / 1000)))
        (sepiaChan ((p.r.val : ℚ) * (349 / 1000) + (p.g.val : ℚ) * (686 / 1000)
          + (p.b.val : ℚ) * (168 / 1000)))
        (sepiaChan ((p.r.val : ℚ) * (272 / 1000) + (p.g.val : ℚ) * (534 / 1000)
          + (p.b.val : ℚ) * (131 / 1000)))) image
  else
    adjust_brightness_contrast (adjust_saturation image (3 / 10)) 10 (11 / 10)

/-- `ImageOps.posterize(img, 4)`: keep the high four bits of each channel. -/
def posterize4 (im : Img) : Img :=
  mapImg (pixMap fun v => ⟨v.val / 16 * 16, by omega⟩) im

/-- `ImageChops.multiply` on one channel: PIL's `MULDIV255` rounding of
`a*b/255`, i.e. `tmp = a*b + 128; ((tmp >> 8) + tmp) >> 8`. -/
def mulChan (a b : Chan) : Chan :=
  ⟨((a.val * b.val + 128) / 256 + (a.val * b.val + 128)) / 256, by
    have ha := a.isLt
    have hb := b.isLt
    have h : a.val * b.val ≤ 255 * 255 :=
      Nat.mul_le_mul (by omega) (by omega)
    omega⟩

/-- `ImageChops.multiply` on RGB images. -/
def multiplyImg (im1 im2 : Img) : Img :=
  ⟨List.zipWith
    (List.zipWith fun p1 p2 =>
      Pix.mk (mulChan p1.r p2.r) (mulChan p1.g p2.g) (mulChan p1.b p2.b))
    im1.rows im2.rows⟩

/-- Red channel of `img.split()`. -/
def channelR (im : Img) : GImg := ⟨im.rows.map (List.map Pix.r)⟩

/-- Green channel of `img.split()`. -/
def channelG (im : Img) : GImg := ⟨im.rows.map (List.map Pix.g)⟩

/-- Blue channel of `img.split()`. -/
def channelB (im : Img) : GImg := ⟨im.rows.map (List.map Pix.b)⟩

/-- `Image.merge('RGB', (r, g, b))` from three bands. -/
def mergeRGB (r g b : GImg) : Img :=
  ⟨List.zipWith (fun rowRG rowB => List.zipWith (fun p v => Pix.mk p.1 p.2 v) rowRG rowB)
    (List.zipWith (fun rowR rowG => List.zipWith Prod.mk rowR rowG) r.rows g.rows)
    b.rows⟩

/-- `Image.new('RGB', (w, h), color)`. -/
def solidImg (w h : Nat) (p : Pix) : Img := ⟨List.replicate h (List.replicate w p)⟩

/-- The PIL-internal image kernels the repository calls but does not define:
convolution, rank and resampling filters, `autocontrast`, the ellipse-drawn
vignette mask and `Image.composite`.  Theorems quantify over every choice. -/
structure PILKernels where
  blur : Img → Img
  contour : Img → Img
  detail : Img → Img
  edgeEnhance : Img → Img
  edgeEnhanceMore : Img → Img
  emboss : Img → Img
  findEdges : Img → Img
  sharpen : Img → Img
  smooth : Img → Img
  smoothMore : Img → Img
  gaussianBlur : ℚ → Img → Img
  medianFilter : ℤ → Img → Img
  modeFilter : ℤ → Img → Img
  minFilter : ℤ → Img → Img
  maxFilter : ℤ → Img → Img
  gaussianBlurL : ℤ → GImg → GImg
  findEdgesL : GImg → GImg
  autocontrastBand : ℚ → GImg → GImg
  vignetteMask : Nat → Nat → GImg
  composite : Img → Img → GImg → Img

/-- A concrete instantiation of the abstract kernels (all identities), used to
evaluate theorems on explicit inputs. -/
def idKernels : PILKernels where
  blur := id
  contour := id
  detail := id
  edgeEnhance := id
  edgeEnhanceMore := id
  emboss := id
  findEdges := id
  sharpen := id
  smooth := id
  smoothMore := id
  gaussianBlur := fun _ => id
  medianFilter := fun _ => id
  modeFilter := fun _ => id
  minFilter := fun _ => id
  maxFilter := fun _ => id
  gaussianBlurL := fun _ => id
  findEdgesL := id
  autocontrastBand := fun _ => id
  vignetteMask := fun _ _ => ⟨[]⟩
  composite := fun im _ _ => im

/-- The ten predefined filter names of `image_utils.apply_filter`
(`src/image_utils.py:139`). -/
def supportedFilters : List String :=
  ["blur", "contour", "detail", "edge_enhance", "edge_enhance_more", "emboss",
   "find_edges", "sharpen", "smooth", "smooth_more"]

/-- `image_utils.apply_filter` (`src/image_utils.py:123`): look the name up in
the fixed filter dictionary and apply it; unknown names return the original
image. -/
def apply_filter (K : PILKernels) (image : Img) (filter_name : String) : Img :=
  if filter_name = "blur" then K.blur image
  else if filter_name = "contour" then K.contour image
  else if filter_name = "detail" then K.detail image
  else if filter_name = "edge_enhance" then K.edgeEnhance image
  else if filter_name = "edge_enhance_more" then K.edgeEnhanceMore image
  else if filter_name = "emboss" then K.emboss image
  else if filter_name = "find_edges" then K.findEdges image
  else if filter_name = "sharpen" then K.sharpen image
  else if filter_name = "smooth" then K.smooth image
  else if filter_name = "smooth_more" then K.smoothMore image
  else image

/-- `uint8` addition of the numpy noise array onto a sketch (`sketch_array +
noise` wraps modulo 256; the subsequent `np.clip` is a no-op on `uint8`). -/
def addNoiseG (noise : List (List Nat)) (g : GImg) : GImg :=
  ⟨List.zipWith
    (List.zipWith fun (v : Chan) (n : Nat) => (⟨(v.val + n) % 256, by omega⟩ : Chan))
    g.rows noise⟩

/-- `image_utils.apply_pencil_sketch` (`src/image_utils.py:301`): grayscale,
Gaussian blur of radius `max(1, int(intensity*3))`, edge detection, invert,
contrast boost `1 + intensity`, blend onto a white canvas with factor
`min(1.0, intensity*0.8)`, then (with numpy) add the sampled noise, and
convert back to RGB. -/
def apply_pencil_sketch (K : PILKernels) (numpyAvailable : Bool)
    (noise : List (List Nat)) (image : Img) (intensity : ℚ) : Img :=
  let img := image
  let gray := grayscale img
  let blur_radius : ℤ := max 1 ⌊intensity * 3⌋
  let blurred := K.gaussianBlurL blur_radius gray
  let edges := K.findEdgesL blurred
  let inverted_edges := invertG edges
  let enhanced_edges := contrastEnhanceL (1 + intensity) inverted_edges
  let white_bg := whiteG img.width img.height
  let blend_factor : ℚ := min 1 (intensity * (4 / 5))
  let sketch := blendG blend_factor white_bg enhanced_edges
  let sketch := if numpyAvailable then addNoiseG noise sketch else sketch
  gray2rgb sketch

/-- Modelled from the spec (§4.3): the deterministic part of the pencil sketch
(steps 1-7, before the optional noise texture), used to state that the
nondeterminism of `apply_pencil_sketch` is confined to the noise addition. -/
def pencilSketchBase (K : PILKernels) (image : Img) (intensity : ℚ) : GImg :=
  let img := image
  let gray := grayscale img
  let blur_radius : ℤ := max 1 ⌊intensity * 3⌋
  let blurred := K.gaussianBlurL blur_radius gray
  let edges := K.findEdgesL blurred
  let inverted_edges := invertG edges
  let enhanced_edges := contrastEnhanceL (1 + intensity) inverted_edges
  let white_bg := whiteG img.width img.height
  let blend_factor : ℚ := min 1 (intensity * (4 / 5))
  blendG blend_factor white_bg enhanced_edges

/-- Steps 1-3 of `ImageProcessorApp.update_image`
(`src/image_processor.py:2046`): brightness+contrast unconditionally, then
saturation only when `!= 1.0`, then hue only when `!= 0`. -/
def applyAdjustments (original : Img) (brightness contrast saturation : ℚ)
    (hue : ℤ) : Img :=
  let img := original
  let img := adjust_brightness_contrast img brightness contrast
  let img := if saturation ≠ 1 then adjust_saturation img saturation else img
  let img := if hue ≠ 0 then adjust_hue img hue else img
  img

/-- The `if current_filter != "none"` dispatch of `update_image`
(`src/image_processor.py:2065`), applied to the adjusted image.  `int(...)` on
the nonnegative slider expressions is `Int.floor`. -/
def applyFilterBranch (K : PILKernels) (numpyAvailable : Bool)
    (noise : List (List Nat)) (img : Img) (brightness contrast intensity : ℚ)
    (currentFilter : String) : Img :=
  if currentFilter = "grayscale" then gray2rgb (grayscale img)
  else if currentFilter = "sepia" then apply_sepia numpyAvailable img
  else if currentFilter = "invert" then invertImg img
  else if currentFilter = "brightness" then
    adjust_brightness_contrast img (50 * intensity) contrast
  else if currentFilter = "contrast" then
    adjust_brightness_contrast img brightness (1 + intensity)
  else if currentFilter = "saturation" then adjust_saturation img (1 + intensity)
  else if currentFilter = "gaussian_blur" then K.gaussianBlur (intensity * 5) img
  else if currentFilter = "median_blur" then K.medianFilter ⌊intensity * 5⌋ img
  else if currentFilter = "sharpen" then
    let img := K.sharpen img
    if 1 < intensity then K.sharpen^[(⌊intensity⌋).toNat] img else img
  else if currentFilter = "edge_detection" then K.findEdges img
  else if currentFilter = "emboss" then K.emboss img
  else if currentFilter = "threshold" then
    let gray := grayscale img
    let threshold : ℤ := ⌊128 * intensity⌋
    gray2rgb (mapG (fun v => if (v.val : ℤ) > threshold then 255 else 0) gray)
  else if currentFilter = "histogram_eq" then
    apply_histogram_equalization numpyAvailable img intensity
  else if currentFilter = "color_balance" then
    mergeRGB (K.autocontrastBand (intensity * 10) (channelR img))
      (K.autocontrastBand (intensity * 10) (channelG img))
      (K.autocontrastBand (intensity * 10) (channelB img))
  else if currentFilter = "vignette" then
    K.composite img (solidImg img.width img.height ⟨30, 20, 10⟩)
      (K.vignetteMask img.width img.height)
  else if currentFilter = "cartoonify" then
    let edges := K.findEdges img
    let edgesL := invertG (grayscale edges)
    let color := posterize4 img
    multiplyImg color (gray2rgb edgesL)
  else if currentFilter = "oil_painting" then
    contrastEnhance (3 / 2) (K.modeFilter ⌊intensity * 5⌋ img)
  else if currentFilter = "pencil_sketch" then
    apply_pencil_sketch K numpyAvailable noise img intensity
  else if currentFilter = "erosion" then K.minFilter ⌊intensity * 5⌋ img
  else if currentFilter = "dilation" then K.maxFilter ⌊intensity * 5⌋ img
  else if currentFilter = "opening" then
    K.maxFilter ⌊intensity * 5⌋ (K.minFilter ⌊intensity * 5⌋ img)
  else if currentFilter = "closing" then
    K.minFilter ⌊intensity * 5⌋ (K.maxFilter ⌊intensity * 5⌋ img)
  else img

/-- The processing core of `ImageProcessorApp.update_image`
(`src/image_processor.py:2046-2171`), as a function from the original image,
the previous processed image and the parameter state to the new
`processed_image`.  In the source, the `self.processed_image = img` assignment
(line 2157) sits INSIDE the `if current_filter != "none":` block, so when the
selected filter is `"none"` the adjusted image is computed but discarded and
`processed_image` keeps its previous value. -/
def update_image (K : PILKernels) (numpyAvailable : Bool)
    (noise : List (List Nat)) (original prevProcessed : Img)
    (brightness contrast saturation : ℚ) (hue : ℤ) (currentFilter : String)
    (intensity : ℚ) : Img :=
  let img := applyAdjustments original brightness contrast saturation hue
  if currentFilter ≠ "none" then
    applyFilterBranch K numpyAvailable noise img brightness contrast intensity
      currentFilter
  else prevProcessed

/-- A crop rectangle. -/
structure Box where
  left : ℤ
  top : ℤ
  right : ℤ
  bottom : ℤ

/-- The coordinate clamping of `image_utils.crop_image`
(`src/image_utils.py:420`): each coordinate forced into
`[0, width]` or `[0, height]`. -/
def clampBox (image : Img) (l t r b : ℤ) : Box :=
  let w : ℤ := image.width
  let h : ℤ := image.height
  ⟨max 0 (min l w), max 0 (min t h), max 0 (min r w), max 0 (min b h)⟩

/-- `image_utils.crop_image` (`src/image_utils.py:404`): clamp the
coordinates, return the original when the rectangle is degenerate, otherwise
`image.crop((l, t, r, b))` — rows `[t, b)` and columns `[l, r)`. -/
def crop_image (image : Img) (l t r b : ℤ) : Img :=
  let bx := clampBox image l t r b
  if bx.right ≤ bx.left ∨ bx.bottom ≤ bx.top then image
  else
    ⟨((image.rows.drop bx.top.toNat).take (bx.bottom - bx.top).toNat).map
      fun row => (row.drop bx.left.toNat).take (bx.right - bx.left).toNat⟩

/-- `image_utils.resize_image` (`src/image_utils.py:434`): non-positive target
dimensions return the original; with `keep_aspect_ratio` the scale is
`min(width/origWidth, height/origHeight)` and the new dimensions are the
truncated scaled ones; the LANCZOS resampling itself is the abstract
`resample` parameter. -/
def resize_image (resample : Img → Nat → Nat → Img) (image : Img) (w h : ℤ)
    (keep_aspect_ratio : Bool) : Img :=
  if w ≤ 0 ∨ h ≤ 0 then image
  else
    let dims : Nat × Nat :=
      if keep_aspect_ratio then
        let ow : ℚ := image.width
        let oh : ℚ := image.height
        let ratio : ℚ := min ((w : ℚ) / ow) ((h : ℚ) / oh)
        ((⌊ow * ratio⌋).toNat, (⌊oh * ratio⌋).toNat)
      else (w.toNat, h.toNat)
    resample image dims.1 dims.2

/-- `image_utils.resize_by_percentage` (`src/image_utils.py:468`):
`percentage <= 0` returns the original, otherwise resample to the truncated
scaled dimensions. -/
def resize_by_percentage (resample : Img → Nat → Nat → Img) (image : Img)
    (percentage : ℚ) : Img :=
  if percentage ≤ 0 then image
  else
    resample image (⌊(image.width : ℚ) * percentage / 100⌋).toNat
      (⌊(image.height : ℚ) * percentage / 100⌋).toNat

/-- The undo/redo state of `ImageProcessorApp`: `self.history` (a list of
image snapshots) and `self.history_position` (an integer cursor, `-1` when no
snapshot was ever taken). -/
structure HistoryState where
  history : List Img
  pos : ℤ
deriving DecidableEq

/-- `self.max_history = 10` (`src/image_processor.py:69`). -/
def max_history : Nat := 10

/-- The state after `__init__` / image load: empty history, cursor `-1`. -/
def initialHistory : HistoryState := ⟨[], -1⟩

/-- `ImageProcessorApp.add_to_history` (`src/image_processor.py:3237`) with an
image loaded: truncate the redo branch when the cursor is not at the tail,
append a snapshot, move the cursor to the tail, and on overflow past
`max_history` drop the oldest entry and decrement the cursor. -/
def add_to_history (s : HistoryState) (processed : Img) : HistoryState :=
  let hist :=
    if s.pos < (s.history.length : ℤ) - 1 then s.history.take (s.pos + 1).toNat
    else s.history
  let hist := hist ++ [processed]
  let pos : ℤ := (hist.length : ℤ) - 1
  if (hist.length : ℤ) > (max_history : ℤ) then ⟨hist.drop 1, pos - 1⟩
  else ⟨hist, pos⟩

/-- `ImageProcessorApp.undo` (`src/image_processor.py:3253`): when the cursor
is positive, decrement it and make the entry there the processed image
(returned as `some`), with the success status text; otherwise a no-op
reporting "Nothing to undo".  In-range indexing (guaranteed by the history
invariant) is modelled with `List.getD`. -/
def undo (s : HistoryState) : HistoryState × Option Img × String :=
  if s.pos > 0 then
    let p := s.pos - 1
    (⟨s.history, p⟩, some (s.history.getD p.toNat ⟨[]⟩),
      "Undo: Reverted to previous state")
  else (s, none, "Nothing to undo")

/-- `ImageProcessorApp.redo` (`src/image_processor.py:3263`): when the cursor
is before the last index, increment it and make the entry there the processed
image; otherwise a no-op reporting "Nothing to redo". -/
def redo (s : HistoryState) : HistoryState × Option Img × String :=
  if s.pos < (s.history.length : ℤ) - 1 then
    let p := s.pos + 1
    (⟨s.history, p⟩, some (s.history.getD p.toNat ⟨[]⟩),
      "Redo: Applied next state")
  else (s, none, "Nothing to redo")

/-- One user-visible history operation. -/
inductive HistOp where
  | push (image : Img)
  | undoOp
  | redoOp
deriving DecidableEq

/-- Run one history operation (keeping only the state). -/
def histStep (s : HistoryState) (op : HistOp) : HistoryState :=
  match op with
  | .push image => add_to_history s image
  | .undoOp => (undo s).1
  | .redoOp => (redo s).1

/-- Run a sequence of history operations from a state. -/
def runOps (s : HistoryState) (ops : List HistOp) : HistoryState :=
  ops.foldl histStep s

/-- Push a sequence of snapshots. -/
def pushAll (s : HistoryState) (l : List Img) : HistoryState :=
  l.foldl add_to_history s

/-- The history invariant claimed by the spec: at most `max_history` entries
are retained, and the cursor is a valid index whenever the store is
non-empty. -/
def HistInv (s : HistoryState) : Prop :=
  s.history.length ≤ max_history ∧
    (s.history ≠ [] → 0 ≤ s.pos ∧ s.pos < (s.history.length : ℤ))

instance (s : HistoryState) : Decidable (HistInv s) := by
  unfold HistInv; infer_instance

/-- Modelled from the spec (§4.1, claim C5): contrast per channel as
`(value - 128) * contrast + 128` clamped to `[0,255]`, after the
multiplicative brightness enhancement with factor `1 + brightness/100`. -/
def specBrightnessContrast (image : Img) (brightness contrast : ℚ) : Img :=
  mapImg (pixMap fun v =>
    let v' : ℚ := (v.val : ℚ) * (1 + brightness / 100)
    clampTruncQ ((v' - 128) * contrast + 128)) image

/-- Modelled from the spec (§4.3, claim C2): the luminance channel of the
required histogram-equalization result,
`original * (1 - intensity) + equalized * intensity` where `equalized` is the
equalized luminance channel. -/
def specHistEqBlendLuma (image : Img) (intensity : ℚ) : GImg :=
  let original := grayscale image
  let equalized := equalizeL original
  ⟨List.zipWith
    (List.zipWith fun (o e : Chan) =>
      clampTruncQ ((o.val : ℚ) * (1 - intensity) + (e.val : ℚ) * intensity))
    original.rows equalized.rows⟩

/-- Modelled from the amended claim C5: multiplicative brightness (factor
`1 + brightness/100`) when `brightness != 0`, then, when `contrast != 1`,
per-channel contrast `(value - m) * contrast + m` clamped to `[0,255]`, where
`m` is the rounded mean luminance of the brightness-adjusted image. -/
def meanPivotBC (image : Img) (brightness contrast : ℚ) : Img :=
  let bimg :=
    if brightness ≠ 0 then
      mapImg (pixMap fun v =>
        clampTruncQ ((1 + brightness / 100) * (v.val : ℚ))) image
    else image
  if contrast ≠ 1 then
    let m : ℚ := (contrastPivot (grayscale bimg) : ℚ)
    mapImg (pixMap fun v => clampTruncQ (((v.val : ℚ) - m) * contrast + m)) bimg
  else bimg

/-- A 1×1 test image with every channel 10. -/
def img10 : Img := ⟨[[⟨10, 10, 10⟩]]⟩

/-- A 1×1 test image with every channel 100. -/
def img100 : Img := ⟨[[⟨100, 100, 100⟩]]⟩

theorem clampTruncQ_natCast (n : Nat) (h : n < 256) :
    clampTruncQ (n : ℚ) = ⟨n, h⟩ := by
  unfold clampTruncQ
  split
  · next h0 =>
    have hn : n = 0 := by exact_mod_cast Nat.cast_nonpos.mp h0
    subst hn
    rfl
  · next h0 =>
    split
    · next h255 =>
      have : (255 : ℚ) ≤ (n : ℚ) := h255
      have hn : 255 ≤ n := by exact_mod_cast this
      have : n = 255 := by omega
      subst this
      rfl
    · next h255 =>
      apply Fin.ext
      simp [Int.floor_natCast]

/-- `clampTruncQ` is the identity on in-range channel values. -/
theorem clampTruncQ_val (v : Chan) : clampTruncQ ((v.val : ℚ)) = v :=
  clampTruncQ_natCast v.val v.isLt

theorem blendChan_one (v1 v2 : Chan) : blendChan 1 v1 v2 = v2 := by
  unfold blendChan
  rw [one_mul]
  have h : (v1.val : ℚ) + ((v2.val : ℚ) - (v1.val : ℚ)) = (v2.val : ℚ) := by ring
  rw [h, clampTruncQ_val]

theorem blendChan_zero_left (alpha : ℚ) (v : Chan) :
    blendChan alpha 0 v = clampTruncQ (alpha * (v.val : ℚ)) := by
  unfold blendChan
  congr 1
  simp [Fin.val_zero]

theorem pixMap_id (f : Chan → Chan) (hf : ∀ v, f v = v) (p : Pix) :
    pixMap f p = p := by
  cases p
  simp [pixMap, hf]

theorem mapImg_id (f : Pix → Pix) (hf : ∀ p, f p = p) (im : Img) :
    mapImg f im = im := by
  have h : f = id := funext hf
  simp [mapImg, h]

theorem brightnessEnhance_one (im : Img) : brightnessEnhance 1 im = im := by
  unfold brightnessEnhance
  apply mapImg_id
  intro p
  apply pixMap_id
  intro v
  rw [blendChan_zero_left, one_mul, clampTruncQ_val]

theorem contrastEnhance_one (im : Img) : contrastEnhance 1 im = im := by
  unfold contrastEnhance
  apply mapImg_id
  intro p
  apply pixMap_id
  intro v
  have h : ((contrastPivot (grayscale im) : ℤ) : ℚ) +
      1 * ((v.val : ℚ) - ((contrastPivot (grayscale im) : ℤ) : ℚ)) = (v.val : ℚ) := by
    ring
  rw [h, clampTruncQ_val]

/-- C7: `adjust_brightness_contrast(I, 0, 1.0)` is the bit-identical identity
on every RGB image, and this does not depend on the no-op fast path being
taken: the PIL brightness and contrast enhancers run at their default factors
(`1 + 0/100` and `1.0`) are themselves the identity. -/
theorem C7_default_parameters_identity (image : Img) :
    adjust_brightness_contrast image 0 1 = image ∧
      brightnessEnhance (1 + 0 / 100) image = image ∧
      contrastEnhance 1 image = image := by
  refine ⟨?_, ?_, contrastEnhance_one image⟩
  · simp [adjust_brightness_contrast]
  · norm_num [brightnessEnhance_one image]

/-- C5 counterexample: on the 1×1 image with channel value 100, brightness 0
and contrast 2.0, `adjust_brightness_contrast` returns channel value 100 (PIL
contrast interpolates toward the image's mean luminance, here 100), while the
claimed formula `(value-128)*contrast+128` demands 72. -/
theorem C5_counterexample :
    adjust_brightness_contrast img100 0 2 ≠ specBrightnessContrast img100 0 2 := by
  decide

/-- C5 (amended): `adjust_brightness_contrast` applies the multiplicative
brightness enhancement (factor `1 + brightness/100`, skipped when
`brightness == 0`) and then, when `contrast != 1.0`, per-channel contrast
`(value - m)*contrast + m` clamped to `[0,255]`, where the pivot `m` is the
rounded mean luminance of the brightness-adjusted image — not the constant
128. -/
theorem C5_contrast_pivots_at_mean_luminance (image : Img)
    (brightness contrast : ℚ) :
    adjust_brightness_contrast image brightness contrast =
      meanPivotBC image brightness contrast := by
  have hb : ∀ im : Img, brightnessEnhance (1 + brightness / 100) im =
      mapImg (pixMap fun v =>
        clampTruncQ ((1 + brightness / 100) * (v.val : ℚ))) im := by
    intro im
    unfold brightnessEnhance
    congr 1
    funext p
    cases p
    simp [pixMap, blendChan_zero_left]
  have hc : ∀ im : Img, contrastEnhance contrast im =
      mapImg (pixMap fun v =>
        clampTruncQ (((v.val : ℚ) - ((contrastPivot (grayscale im) : ℤ) : ℚ))
          * contrast + ((contrastPivot (grayscale im) : ℤ) : ℚ))) im := by
    intro im
    unfold contrastEnhance
    dsimp only
    congr 1
    funext p
    cases p
    simp only [pixMap]
    congr 1 <;> · congr 1; ring
  unfold adjust_brightness_contrast meanPivotBC
  dsimp only
  split_ifs with h1 h2 h3
  · rw [hb, hc]
  · rw [hc]
  · rw [hb]
  · rfl

/-- C1 (code_bug): with the filter id `"none"`, `update_image` never commits
the adjusted image: `self.processed_image = img` sits inside the
`if current_filter != "none"` block, so the previous processed image is kept
for every base image and adjustment state; in particular, at brightness 50 on
a 1×1 gray-100 image, the committed result is not the brightness-adjusted
image the claim requires. -/
theorem C1_filter_none_discards_adjustments :
    (∀ (K : PILKernels) (numpyAvailable : Bool) (noise : List (List Nat))
        (original prevProcessed : Img) (brightness contrast saturation : ℚ)
        (hue : ℤ) (intensity : ℚ),
      update_image K numpyAvailable noise original prevProcessed brightness
          contrast saturation hue "none" intensity = prevProcessed) ∧
      update_image idKernels false [] img100 img100 50 1 1 0 "none" 1 ≠
        applyAdjustments img100 50 1 1 0 := by
  constructor
  · intro K numpyAvailable noise original prevProcessed brightness contrast
      saturation hue intensity
    simp [update_image]
  · decide

/-- C2 (code_bug): with numpy available, `apply_histogram_equalization`
computes the equalized luminance and its intensity blend but discards both:
for every image and intensity the result is the fixed
`ImageEnhance.Brightness(...).enhance(1.2)` of the input — a mere scalar
brightness bump.  On the 1×1 gray-10 image at intensity 1.0 its luminance is
12, while the claimed blend `original*(1-intensity) + equalized*intensity`
gives luminance 10. -/
theorem C2_histogram_eq_is_brightness_bump :
    (∀ (image : Img) (intensity : ℚ),
        apply_histogram_equalization true image intensity =
          brightnessEnhance (6 / 5) image) ∧
      grayscale (apply_histogram_equalization true img10 1) ≠
        specHistEqBlendLuma img10 1 := by
  constructor
  · intro image intensity
    rfl
  · decide

/-- A kernel assignment whose sharpen filter doubles every channel value, so
that distinct application counts are observable. -/
def doubleK : PILKernels := { idKernels with sharpen := brightnessEnhance 2 }

/-- C6 counterexample: at intensity 1.2 (within the claimed domain
`[0.1, 2.0]`), `update_image`'s sharpen branch applies the kernel twice, while
the claimed count `max(1, round(intensity))` is 1 — and the two counts give
different images. -/
theorem C6_counterexample :
    update_image doubleK false [] img10 img10 0 1 1 0 "sharpen" (6 / 5) =
        doubleK.sharpen (doubleK.sharpen img10) ∧
      max 1 (round (6 / 5 : ℚ)).toNat = 1 ∧
      doubleK.sharpen (doubleK.sharpen img10) ≠ doubleK.sharpen img10 := by
  refine ⟨by decide, by decide, by decide⟩

/-- C6 (amended): the sharpen branch of `update_image` applies the fixed
sharpening kernel `1 + floor(intensity)` times when `intensity > 1.0`, and
exactly once otherwise (the code runs it once and then `int(intensity)` more
times when `intensity > 1.0`). -/
theorem C6_sharpen_count (K : PILKernels) (numpyAvailable : Bool)
    (noise : List (List Nat)) (original prevProcessed : Img)
    (brightness contrast saturation : ℚ) (hue : ℤ) (intensity : ℚ) :
    update_image K numpyAvailable noise original prevProcessed brightness
        contrast saturation hue "sharpen" intensity =
      K.sharpen^[if 1 < intensity then 1 + (⌊intensity⌋).toNat else 1]
        (applyAdjustments original brightness contrast saturation hue) := by
  unfold update_image
  rw [if_pos (by decide : ("sharpen" : String) ≠ "none")]
  unfold applyFilterBranch
  simp only [String.reduceEq, if_false, if_true, reduceIte]
  split_ifs with h
  · rw [Nat.add_comm, Function.iterate_succ_apply]
  · rw [Function.iterate_one]

/-- C9 counterexample: `apply_pencil_sketch` with numpy available adds the
freshly sampled noise array to the sketch, so two invocations with the same
image and intensity but different draws of the hidden random state produce
different results. -/
theorem C9_counterexample :
    apply_pencil_sketch idKernels true [[0]] img10 1 ≠
      apply_pencil_sketch idKernels true [[7]] img10 1 := by
  decide

/-- C9 (amended): every core transform is a deterministic function of its
inputs once the sampled noise is made explicit, and the nondeterminism of
`apply_pencil_sketch` is confined to the final noise-addition step: with numpy
the result is exactly the deterministic steps 1-7 plus the noise, and without
numpy (no noise step) it is deterministic in the image and intensity alone. -/
theorem C9_noise_confined_to_last_step (K : PILKernels)
    (noise : List (List Nat)) (image : Img) (intensity : ℚ) :
    apply_pencil_sketch K true noise image intensity =
        gray2rgb (addNoiseG noise (pencilSketchBase K image intensity)) ∧
      apply_pencil_sketch K false noise image intensity =
        gray2rgb (pencilSketchBase K image intensity) :=
  ⟨rfl, rfl⟩

/-- C10: `apply_filter` with a name outside the ten supported predefined
filters returns the input image unchanged. -/
theorem C10_unknown_filter_is_noop (K : PILKernels) (image : Img)
    (filter_name : String) (h : filter_name ∉ supportedFilters) :
    apply_filter K image filter_name = image := by
  simp only [supportedFilters, List.mem_cons, List.not_mem_nil, or_false,
    not_or] at h
  obtain ⟨h1, h2, h3, h4, h5, h6, h7, h8, h9, h10⟩ := h
  simp [apply_filter, h1, h2, h3, h4, h5, h6, h7, h8, h9, h10]

/-- C10 witness: the unsupported name "vintage" leaves the image unchanged. -/
theorem C10_witness :
    ("vintage" : String) ∉ supportedFilters ∧
      apply_filter idKernels img10 "vintage" = img10 :=
  ⟨by decide, C10_unknown_filter_is_noop idKernels img10 "vintage" (by decide)⟩

/-- C8: invalid geometry parameters are silent no-ops returning the input
image unchanged: `resize_image` with a non-positive target dimension,
`resize_by_percentage` with `percentage <= 0`, and `crop_image` whose clamped
rectangle is degenerate (`right <= left` or `bottom <= top`), for every
resampling kernel. -/
theorem C8_invalid_geometry_noop :
    (∀ (resample : Img → Nat → Nat → Img) (image : Img) (w h : ℤ)
        (keep_aspect_ratio : Bool), w ≤ 0 ∨ h ≤ 0 →
      resize_image resample image w h keep_aspect_ratio = image) ∧
    (∀ (resample : Img → Nat → Nat → Img) (image : Img) (percentage : ℚ),
        percentage ≤ 0 →
      resize_by_percentage resample image percentage = image) ∧
    (∀ (image : Img) (l t r b : ℤ),
        ((clampBox image l t r b).right ≤ (clampBox image l t r b).left ∨
          (clampBox image l t r b).bottom ≤ (clampBox image l t r b).top) →
      crop_image image l t r b = image) := by
  refine ⟨?_, ?_, ?_⟩
  · intro resample image w h keep hwh
    unfold resize_image
    rw [if_pos hwh]
  · intro resample image p hp
    unfold resize_by_percentage
    rw [if_pos hp]
  · intro image l t r b hbox
    unfold crop_image
    dsimp only
    rw [if_pos hbox]

/-- C8 witness: resize to width 0, resize by 0 percent and the degenerate
crop rectangle `(0,0,0,0)` all return the 1×1 test image unchanged. -/
theorem C8_witness :
    ((0 : ℤ) ≤ 0 ∨ (100 : ℤ) ≤ 0) ∧
      resize_image (fun i _ _ => i) img10 0 100 true = img10 ∧
      ((0 : ℚ) ≤ 0) ∧
      resize_by_percentage (fun i _ _ => i) img10 0 = img10 ∧
      ((clampBox img10 0 0 0 0).right ≤ (clampBox img10 0 0 0 0).left ∨
        (clampBox img10 0 0 0 0).bottom ≤ (clampBox img10 0 0 0 0).top) ∧
      crop_image img10 0 0 0 0 = img10 :=
  ⟨Or.inl le_rfl,
   C8_invalid_geometry_noop.1 (fun i _ _ => i) img10 0 100 true (Or.inl le_rfl),
   le_rfl,
   C8_invalid_geometry_noop.2.1 (fun i _ _ => i) img10 0 le_rfl,
   by decide,
   C8_invalid_geometry_noop.2.2 img10 0 0 0 0 (by decide)⟩

theorem histStep_inv (s : HistoryState) (op : HistOp) (h : HistInv s) :
    HistInv (histStep s op) := by
  obtain ⟨hlen, hcur⟩ := h
  cases op with
  | push image =>
    unfold histStep add_to_history
    dsimp only
    constructor <;>
      split_ifs with h1 h2 h2 <;>
      simp_all [HistInv, max_history, List.length_take, List.length_append,
        List.length_drop] <;>
      omega
  | undoOp =>
    unfold histStep undo
    dsimp only
    split_ifs with h1
    · dsimp only
      refine ⟨hlen, fun hne => ?_⟩
      obtain ⟨hp0, hpl⟩ := hcur hne
      constructor <;> · dsimp only; omega
    · exact ⟨hlen, hcur⟩
  | redoOp =>
    unfold histStep redo
    dsimp only
    split_ifs with h1
    · dsimp only
      refine ⟨hlen, fun hne => ?_⟩
      obtain ⟨hp0, hpl⟩ := hcur hne
      constructor <;> · dsimp only; omega
    · exact ⟨hlen, hcur⟩

theorem pushAll_small (l : List Img) (hl : l.length ≤ 10) :
    pushAll initialHistory l = ⟨l, (l.length : ℤ) - 1⟩ := by
  induction l using List.reverseRecOn with
  | nil => rfl
  | append_singleton l2 x ih =>
    have hl9 : l2.length ≤ 9 := by
      simp only [List.length_append, List.length_singleton] at hl
      omega
    unfold pushAll
    rw [List.foldl_append, List.foldl_cons, List.foldl_nil]
    rw [show List.foldl add_to_history initialHistory l2 =
        pushAll initialHistory l2 from rfl, ih (by omega)]
    unfold add_to_history
    dsimp only
    rw [if_neg (by omega : ¬ ((l2.length : ℤ) - 1 < (l2.length : ℤ) - 1))]
    rw [if_neg (by
      simp only [List.length_append, List.length_singleton, max_history]
      push_cast
      omega)]

/-- C3: pushing 11 snapshots into the empty history (bound `max_history =
10`) leaves exactly the last 10 with the oldest evicted and the cursor at the
newest entry (index 9); and after every sequence of push/undo/redo operations
at most 10 entries are retained and the cursor is a valid index whenever the
store is non-empty. -/
theorem C3_history_bound_and_invariant :
    (∀ l : List Img, l.length = 11 →
        (pushAll initialHistory l).history = l.drop 1 ∧
          (pushAll initialHistory l).pos = 9) ∧
      ∀ ops : List HistOp, HistInv (runOps initialHistory ops) := by
  constructor
  · intro l hl
    rcases List.eq_nil_or_concat l with rfl | ⟨l2, x, rfl⟩
    · simp at hl
    · simp only [List.concat_eq_append] at hl ⊢
      have hl2 : l2.length = 10 := by
        simp only [List.length_append, List.length_singleton] at hl
        omega
      have hmain : pushAll initialHistory (l2 ++ [x]) = ⟨(l2 ++ [x]).drop 1, 9⟩ := by
        unfold pushAll
        rw [List.foldl_append, List.foldl_cons, List.foldl_nil]
        rw [show List.foldl add_to_history initialHistory l2 =
            pushAll initialHistory l2 from rfl, pushAll_small l2 (by omega)]
        unfold add_to_history
        dsimp only
        rw [if_neg (by omega : ¬ ((l2.length : ℤ) - 1 < (l2.length : ℤ) - 1))]
        rw [if_pos (by
          simp only [List.length_append, List.length_singleton, max_history, hl2]
          norm_num)]
        congr 1
        simp [List.length_append, hl2]
      rw [hmain]
      exact ⟨rfl, rfl⟩
  · have key : ∀ (ops : List HistOp) (s : HistoryState), HistInv s →
        HistInv (runOps s ops) := by
      intro ops
      induction ops with
      | nil => intro s hs; exact hs
      | cons op rest ih => intro s hs; exact ih (histStep s op) (histStep_inv s op hs)
    intro ops
    refine key ops initialHistory ⟨by simp [initialHistory, max_history], ?_⟩
    intro h
    simp [initialHistory] at h

/-- C3 witness: eleven concrete pushes evict the oldest snapshot and leave the
cursor at index 9, and a concrete push/undo/redo run satisfies the
invariant. -/
theorem C3_witness :
    ((pushAll initialHistory (List.replicate 11 img10)).history =
        (List.replicate 11 img10).drop 1 ∧
      (pushAll initialHistory (List.replicate 11 img10)).pos = 9) ∧
      HistInv (runOps initialHistory
        [HistOp.push img10, HistOp.undoOp, HistOp.redoOp]) :=
  ⟨C3_history_bound_and_invariant.1 (List.replicate 11 img10) (by decide),
   C3_history_bound_and_invariant.2
     [HistOp.push img10, HistOp.undoOp, HistOp.redoOp]⟩

/-- C4: after `push A; push B`, `undo` returns `A` and a subsequent `redo`
returns `B`; after `push A; push B; undo; push C` the store holds exactly
`[A, C]` (entry `B` is discarded by the linear-history truncation) with the
cursor at the newest entry, and a subsequent `redo` is a no-op that reports
"Nothing to redo" and leaves the state unchanged. -/
theorem C4_linear_history_truncation (A B C : Img) :
    (undo (add_to_history (add_to_history initialHistory A) B)).2.1 = some A ∧
    (redo (undo (add_to_history (add_to_history initialHistory A) B)).1).2.1 =
      some B ∧
    (add_to_history
        (undo (add_to_history (add_to_history initialHistory A) B)).1
        C).history = [A, C] ∧
    (add_to_history
        (undo (add_to_history (add_to_history initialHistory A) B)).1
        C).pos = 1 ∧
    (redo (add_to_history
        (undo (add_to_history (add_to_history initialHistory A) B)).1
        C)).2.1 = none ∧
    (redo (add_to_history
        (undo (add_to_history (add_to_history initialHistory A) B)).1
        C)).2.2 = "Nothing to redo" ∧
    (redo (add_to_history
        (undo (add_to_history (add_to_history initialHistory A) B)).1
        C)).1 =
      add_to_history
        (undo (add_to_history (add_to_history initialHistory A) B)).1 C := by
  have h1 : add_to_history initialHistory A = ⟨[A], 0⟩ := rfl
  have h2 : add_to_history (⟨[A], 0⟩ : HistoryState) B = ⟨[A, B], 1⟩ := rfl
  have h3 : undo (⟨[A, B], 1⟩ : HistoryState) =
      (⟨[A, B], 0⟩, some A, "Undo: Reverted to previous state") := rfl
  have h4 : redo (⟨[A, B], 0⟩ : HistoryState) =
      (⟨[A, B], 1⟩, some B, "Redo: Applied next state") := rfl
  have h5 : add_to_history (⟨[A, B], 0⟩ : HistoryState) C = ⟨[A, C], 1⟩ := rfl
  have h6 : redo (⟨[A, C], 1⟩ : HistoryState) =
      (⟨[A, C], 1⟩, none, "Nothing to redo") := rfl
  refine ⟨?_, ?_, ?_, ?_, ?_, ?_, ?_⟩ <;> simp only [h1, h2, h3, h4, h5, h6]

end ImgProc
